import Mathlib

/-
Verification of the embedding-drift analysis core described in spec.md.
The repository's source tree contains only the tutorial notebook
(src/tutorials/sentiment_classification_tutorial.ipynb), a thin client that
calls the phoenix library (px.Schema, px.EmbeddingColumnNames, px.Dataset,
px.launch_app, px.close_app).  The library itself is not part of the tree,
so every component below is modelled from the spec, as flagged in the doc
comments.
-/

namespace Phoenix

/-- Modelled from the spec: the error taxonomy of the analysis core (spec
section 7).  The library code raising these is missing from the source tree. -/
inductive PhxError where
  | schemaError
  | dimensionMismatch
  | insufficientData
  | sessionClosed
  | resourceExhausted
  deriving DecidableEq, Repr

/-- Modelled from the spec: an embedding feature declaration, echoing the
notebook's px.EmbeddingColumnNames — a feature name, a vector column name and
an optional raw-data column name (spec section 3). -/
structure EmbeddingColumnNames where
  name : String
  vectorColumnName : String
  rawDataColumnName : Option String
  deriving DecidableEq, Repr

/-- Modelled from the spec: the declarative schema of the notebook's px.Schema
— a mapping from semantic roles to column identifiers (spec section 3). -/
structure Schema where
  timestampColumnName : Option String
  predictionLabelColumnName : Option String
  actualLabelColumnName : Option String
  featureColumnNames : List String
  embeddingFeatureColumnNames : List EmbeddingColumnNames
  deriving DecidableEq, Repr

/-- Modelled from the spec: the column identifiers a schema declares — role
columns, explicit feature columns, and each embedding feature's vector column
plus its raw-data column when given (spec sections 3 and 4.1). -/
def Schema.declaredColumns (s : Schema) : List String :=
  s.timestampColumnName.toList ++ s.predictionLabelColumnName.toList ++
    s.actualLabelColumnName.toList ++ s.featureColumnNames ++
    s.embeddingFeatureColumnNames.map (fun f => f.vectorColumnName) ++
    s.embeddingFeatureColumnNames.filterMap (fun f => f.rawDataColumnName)

/-- Modelled from the spec: SchemaModel.validate — pure validation that every
declared column identifier exists in the dataset's column set, failing with
SchemaError otherwise (spec sections 3, 4.1 and 8). -/
def SchemaModel.validate (s : Schema) (datasetCols : List String) : Except PhxError Unit :=
  if s.declaredColumns.all (fun c => c ∈ datasetCols) then .ok () else .error .schemaError

/-- Modelled from the spec: the materialized table abstraction handed to the
core by the external data-loading collaborator (spec section 6): column
identifiers plus, per column, the rows of that column read as numeric
sequences (only vector-valued columns matter to the claims below). -/
structure Table where
  colNames : List String
  colData : List (String × List (List Int))
  deriving DecidableEq, Repr

/-- Association-list lookup used for columns and artifact caches. -/
def aLookup {β : Type} (k : String) : List (String × β) → Option β
  | [] => none
  | p :: rest => if p.1 = k then some p.2 else aLookup k rest

/-- Rows of one named column of a table, as numeric sequences. -/
def colLookup (t : Table) (c : String) : List (List Int) :=
  (aLookup c t.colData).getD []

/-- Whether all rows of a vector column have one fixed length. -/
def allSameLength (rows : List (List Int)) : Bool :=
  match rows with
  | [] => true
  | v :: rest => rest.all (fun w => w.length = v.length)

/-- Modelled from the spec: a schema-bound immutable dataset (spec section 3)
with, for each declared embedding feature, its extracted vector column aligned
to row identity. -/
structure Dataset where
  name : String
  schema : Schema
  vectors : List (String × List (List Int))
  deriving DecidableEq, Repr

/-- Modelled from the spec: extraction of every declared embedding feature's
vector column, failing with DimensionMismatchError when rows within one
column have differing lengths (spec section 4.2). -/
def extractVectors (t : Table) : List EmbeddingColumnNames →
    Except PhxError (List (String × List (List Int)))
  | [] => .ok []
  | f :: rest =>
    if allSameLength (colLookup t f.vectorColumnName) then
      match extractVectors t rest with
      | .ok vs => .ok ((f.name, colLookup t f.vectorColumnName) :: vs)
      | .error e => .error e
    else .error .dimensionMismatch

/-- Modelled from the spec: DatasetModel.construct — validates the table's
columns against the schema first (spec section 2 data flow), then extracts
each embedding feature's fixed-length vectors (spec section 4.2). -/
def DatasetModel.construct (t : Table) (nm : String) (s : Schema) : Except PhxError Dataset :=
  match SchemaModel.validate s t.colNames with
  | .error e => .error e
  | .ok _ =>
    match extractVectors t s.embeddingFeatureColumnNames with
    | .error e => .error e
    | .ok vs => .ok ⟨nm, s, vs⟩

/-- Tag distinguishing which dataset a projected row came from. -/
inductive Source where
  | reference
  | primary
  deriving DecidableEq, Repr

/-- Splits a list into chunks of size n (n = 0 behaves like size 1), with an
explicit fuel argument so the definition is structurally recursive. -/
def chunkListGo {α : Type} (n : Nat) : Nat → List α → List (List α)
  | _, [] => []
  | 0, l => [l]
  | fuel + 1, x :: xs => (x :: xs.take (n - 1)) :: chunkListGo n fuel (xs.drop (n - 1))

/-- Splits a list into chunks of size n. -/
def chunkList {α : Type} (n : Nat) (l : List α) : List (List α) :=
  chunkListGo n l.length l

/-- Maps f over l by processing independent chunks of size n and concatenating
the chunk results, modelling the worker-pool parallelism of spec section 5. -/
def mapChunked {α β : Type} (n : Nat) (f : α → β) (l : List α) : List β :=
  ((chunkList n l).map (List.map f)).flatten

/-- Modelled from the spec: EmbeddingProjector.project (spec section 4.3).
The reduction algorithm itself (a UMAP-style fit) is left as the parameter
reduce, which from a seed and the pooled vector set produces the fitted
point-transformation; project concatenates reference and primary vectors into
one pool, fits once on that pool, applies the fitted model to every pooled row
(chunk-parallel per spec section 5), and tags each coordinate by source. -/
def EmbeddingProjector.project (reduce : Nat → List (List Int) → List Int → List Int)
    (chunk seed : Nat) (refVecs primVecs : List (List Int)) : List (Source × List Int) :=
  let pool := refVecs ++ primVecs
  let model := reduce seed pool
  (List.replicate refVecs.length Source.reference ++
      List.replicate primVecs.length Source.primary).zip (mapChunked chunk model pool)

/-- First occurrences of each distinct element, left to right; the accumulator
records elements already seen so the recursion is structural. -/
def firstKeysAux {α : Type} [DecidableEq α] (seen : List α) : List α → List α
  | [] => []
  | c :: cs => if c ∈ seen then firstKeysAux seen cs else c :: firstKeysAux (c :: seen) cs

/-- Distinct elements of a list in order of first appearance. -/
def firstKeys {α : Type} [DecidableEq α] (l : List α) : List α :=
  firstKeysAux [] l

/-- Number of occurrences of the coordinate k in the projected point list. -/
def freq (coords : List (List Int)) (k : List Int) : Nat :=
  (coords.filter (fun c => c = k)).length

/-- Position of the first occurrence of a in a list (its length when absent). -/
def idxOf {α : Type} [DecidableEq α] (a : α) : List α → Nat
  | [] => 0
  | b :: l => if b = a then 0 else idxOf a l + 1

/-- Modelled from the spec: the non-noise cluster keys of a density clustering
run, ordered by decreasing cluster size (spec section 4.4 tie-break policy).
Density grouping is modelled at radius zero: points sharing one coordinate
form a group, groups below the minimum size are noise. -/
def clusterKeys (minSize : Nat) (coords : List (List Int)) : List (List Int) :=
  List.insertionSort (fun a b => freq coords b ≤ freq coords a)
    ((firstKeys coords).filter (fun k => minSize ≤ freq coords k))

/-- Modelled from the spec: ClusterAnalyzer.cluster (spec section 4.4) — maps
every projected row to a cluster id or to none (the NOISE bucket); ids are
positions in the size-descending key list, so the largest cluster gets id 0. -/
def ClusterAnalyzer.cluster (minSize : Nat) (coords : List (List Int)) : List (Option Nat) :=
  coords.map (fun c =>
    if minSize ≤ freq coords c then some (idxOf c (clusterKeys minSize coords)) else none)

/-- Number of rows a clustering assignment places in cluster cid. -/
def clusterSize (assignment : List (Option Nat)) (cid : Nat) : Nat :=
  (assignment.filter (fun o => o = some cid)).length

/-- Number of non-noise clusters a clustering run produces. -/
def numClusters (minSize : Nat) (coords : List (List Int)) : Nat :=
  (clusterKeys minSize coords).length

/-- Row identities assigned to cluster cid by a clustering assignment. -/
def clusterMembers (assignment : List (Option Nat)) (cid : Nat) : List Nat :=
  (List.range assignment.length).filter (fun i => assignment.getD i none = some cid)

/-- Row identities placed in the NOISE bucket by a clustering assignment. -/
def noiseMembers (assignment : List (Option Nat)) : List Nat :=
  (List.range assignment.length).filter (fun i => assignment.getD i none = none)

/-- Modelled from the spec: a drift scope — GLOBAL or one non-noise cluster
(spec section 4.5). -/
inductive Scope where
  | global
  | cluster (cid : Nat)
  deriving DecidableEq, Repr

/-- Modelled from the spec: a DriftResult — the sample sizes a score was
computed from plus either a numeric drift value or none, the undefined
sentinel (spec sections 3 and 4.5). -/
structure DriftResult where
  countRef : Nat
  countPrim : Nat
  value : Option ℚ
  deriving DecidableEq, Repr

/-- Whether row identity i falls inside a scope under an assignment. -/
def inScope (assignment : List (Option Nat)) (s : Scope) (i : Nat) : Bool :=
  match s with
  | .global => true
  | .cluster cid => assignment.getD i none = some cid

/-- How many of the given row identities fall inside a scope. -/
def countIn (assignment : List (Option Nat)) (ids : List Nat) (s : Scope) : Nat :=
  (ids.filter (fun i => inScope assignment s i)).length

/-- The scopes a drift run reports: GLOBAL plus each non-noise cluster id. -/
def scopes (assignment : List (Option Nat)) : List Scope :=
  Scope.global :: (firstKeys (assignment.filterMap id)).map Scope.cluster

/-- Modelled from the spec: the DriftResult for one scope — restricted
reference and primary counts, with the undefined sentinel whenever either
subpopulation is empty and the statistic stat of the two counts otherwise
(spec section 4.5 edge case). -/
def mkResult (stat : Nat → Nat → ℚ) (assignment : List (Option Nat))
    (refIds primIds : List Nat) (s : Scope) : DriftResult :=
  let cr := countIn assignment refIds s
  let cp := countIn assignment primIds s
  ⟨cr, cp, if cr = 0 ∨ cp = 0 then none else some (stat cr cp)⟩

/-- Modelled from the spec: DriftScorer.score (spec section 4.5) — one
DriftResult per scope; the distance statistic itself is the parameter stat. -/
def DriftScorer.score (stat : Nat → Nat → ℚ) (assignment : List (Option Nat))
    (refIds primIds : List Nat) : List (Scope × DriftResult) :=
  (scopes assignment).map (fun s => (s, mkResult stat assignment refIds primIds s))

/-- Modelled from the spec: the session state machine CREATED → OPEN → CLOSED
(spec section 4.6). -/
inductive SessionState where
  | created
  | opened
  | closed
  deriving DecidableEq, Repr

/-- Configuration an analysis session carries: projection seed, chunk size of
the internal worker pool, and the minimum cluster size. -/
structure SessionConfig where
  seed : Nat
  chunk : Nat
  minClusterSize : Nat
  deriving DecidableEq, Repr

/-- Modelled from the spec: the AnalysisArtifact computed per embedding
feature — projected coordinates per row, cluster assignment per row and the
drift results (spec section 6). -/
structure Artifact where
  coords : List (Source × List Int)
  assignment : List (Option Nat)
  drifts : List (Scope × DriftResult)
  deriving DecidableEq, Repr

/-- Modelled from the spec: an AnalysisSession (spec section 4.6) — lifecycle
state, the two held datasets, configuration, the reduction and statistic
parameters, and the artifact cache keyed by feature name. -/
structure Session where
  state : SessionState
  refDs : Option Dataset
  primDs : Option Dataset
  config : SessionConfig
  reduce : Nat → List (List Int) → List Int → List Int
  stat : Nat → Nat → ℚ
  cache : List (String × Artifact)

/-- Extracted vectors of one embedding feature of a dataset. -/
def featureVectors (d : Dataset) (f : String) : List (List Int) :=
  (aLookup f d.vectors).getD []

/-- Overwrites the cache slot for feature k with artifact a. -/
def overwrite (k : String) (a : Artifact) (c : List (String × Artifact)) :
    List (String × Artifact) :=
  (k, a) :: c.filter (fun p => ¬ (p.1 = k))

/-- Modelled from the spec: AnalysisSession.compute (spec section 4.6) — valid
only in the OPEN state, runs projection, clustering and drift scoring for the
named embedding feature over the held dataset pair, and overwrites the cache
slot for that feature name. -/
def AnalysisSession.compute (f : String) (s : Session) : Except PhxError (Session × Artifact) :=
  match s.state with
  | .opened =>
    match s.refDs, s.primDs with
    | some dr, some dp =>
      let rv := featureVectors dr f
      let pv := featureVectors dp f
      let coords := EmbeddingProjector.project s.reduce s.config.chunk s.config.seed rv pv
      let assignment := ClusterAnalyzer.cluster s.config.minClusterSize (coords.map Prod.snd)
      let refIds := List.range rv.length
      let primIds := (List.range pv.length).map (fun i => i + rv.length)
      let drifts := DriftScorer.score s.stat assignment refIds primIds
      let a : Artifact := ⟨coords, assignment, drifts⟩
      .ok ({ s with cache := overwrite f a s.cache }, a)
    | _, _ => .error .insufficientData
  | _ => .error .sessionClosed

/-- Modelled from the spec: close() — transitions to the terminal CLOSED state
and releases the held datasets and every cached artifact (spec section 4.6). -/
def AnalysisSession.close (s : Session) : Session :=
  { s with state := .closed, refDs := none, primDs := none, cache := [] }

/-- Modelled from the spec: artifact lookup by feature name, part of the
export interface of spec section 6; artifacts are reachable only while the
session is OPEN. -/
def getArtifact (s : Session) (f : String) : Option Artifact :=
  match s.state with
  | .opened => aLookup f s.cache
  | _ => none

/-- Modelled from the spec: open(reference, primary) — validates that the two
datasets share a structurally identical schema and returns an OPEN session
with an empty cache (spec section 4.6). -/
def AnalysisSession.openSession (refDs primDs : Dataset) (cfg : SessionConfig)
    (reduce : Nat → List (List Int) → List Int → List Int) (stat : Nat → Nat → ℚ) :
    Except PhxError Session :=
  if refDs.schema = primDs.schema then
    .ok ⟨.opened, some refDs, some primDs, cfg, reduce, stat, []⟩
  else .error .schemaError

/-- Modelled from the spec: px.launch_app — opens a session on the dataset
pair and installs it as the process-wide current session, returning the new
global handle together with the session (spec section 9: a single mutable
global current session, held here as an Option so at most one is active). -/
def launch_app (primDs refDs : Dataset) (cfg : SessionConfig)
    (reduce : Nat → List (List Int) → List Int → List Int) (stat : Nat → Nat → ℚ) :
    Except PhxError (Option Session × Session) :=
  match AnalysisSession.openSession refDs primDs cfg reduce stat with
  | .ok s => .ok (some s, s)
  | .error e => .error e

/-- Modelled from the spec: px.close_app — takes no session argument, closes
the current global session and clears the global handle; returns the new
(empty) handle and the closed session (spec sections 4.6 and 9). -/
def close_app (current : Option Session) : Option Session × Option Session :=
  (none, current.map AnalysisSession.close)

/-- The schema declared by the tutorial notebook (cell 9). -/
def schemaDemo : Schema :=
  ⟨some "prediction_ts", some "pred_label", some "label", [],
    [⟨"text_embedding", "text_vector", some "text"⟩]⟩

/-- A one-row stand-in for the notebook's reference dataset. -/
def refDemo : Dataset := ⟨"reference", schemaDemo, [("text_embedding", [[1]])]⟩

/-- A one-row stand-in for the notebook's primary dataset. -/
def primDemo : Dataset := ⟨"primary", schemaDemo, [("text_embedding", [[2]])]⟩

/-- A trivial fitted reduction used to exercise the session pipeline. -/
def redDemo : Nat → List (List Int) → List Int → List Int := fun _ _ _ => []

/-- A trivial drift statistic used to exercise the session pipeline. -/
def statDemo : Nat → Nat → ℚ := fun _ _ => 0

/-- A small session configuration used to exercise the session pipeline. -/
def cfgDemo : SessionConfig := ⟨0, 1, 1⟩

/-- An OPEN session over the demo datasets with an empty cache. -/
def sessDemo : Session :=
  ⟨.opened, some refDemo, some primDemo, cfgDemo, redDemo, statDemo, []⟩

/-- The artifact compute produces for the demo session's embedding feature. -/
def artDemo : Artifact :=
  ⟨[(.reference, []), (.primary, [])], [some 0, some 0],
    [(.global, ⟨1, 1, some 0⟩), (.cluster 0, ⟨1, 1, some 0⟩)]⟩

/-- The demo session after one compute call cached its artifact. -/
def sessDemo2 : Session := { sessDemo with cache := [("text_embedding", artDemo)] }

/-- A table whose single vector column has rows of differing lengths. -/
def tableDemo : Table := ⟨["v"], [("v", [[1], [2, 3]])]⟩

/-- A schema declaring one embedding feature over column v. -/
def schemaV : Schema := ⟨none, none, none, [], [⟨"e", "v", none⟩]⟩

theorem chunkListGo_flatten {α : Type} (n : Nat) :
    ∀ (fuel : Nat) (l : List α), l.length ≤ fuel → (chunkListGo n fuel l).flatten = l := by
  intro fuel
  induction fuel with
  | zero =>
    intro l hl
    cases l with
    | nil => rfl
    | cons x xs => simp at hl
  | succ fuel ih =>
    intro l hl
    cases l with
    | nil => rfl
    | cons x xs =>
      have hx : (xs.drop (n - 1)).length ≤ fuel := by
        simp only [List.length_drop]
        simp only [List.length_cons] at hl
        omega
      simp only [chunkListGo, List.flatten_cons, ih _ hx, List.cons_append,
        List.take_append_drop]

theorem mapChunked_eq {α β : Type} (n : Nat) (f : α → β) (l : List α) :
    mapChunked n f l = l.map f := by
  unfold mapChunked chunkList
  rw [← List.map_flatten, chunkListGo_flatten n l.length l (Nat.le_refl _)]

/-- C1: For every reduction algorithm, chunking degree, seed and pair of
reference and primary vector sequences, project returns one coordinate per
input row, tags the first block as reference rows and the second as primary
rows, and every coordinate is produced by the single model fit on the pooled
(concatenated) vector set — there is no per-dataset fit. -/
theorem project_pooled_single_fit
    (reduce : Nat → List (List Int) → List Int → List Int) (chunk seed : Nat)
    (refVecs primVecs : List (List Int)) :
    (EmbeddingProjector.project reduce chunk seed refVecs primVecs).length
        = refVecs.length + primVecs.length
    ∧ (EmbeddingProjector.project reduce chunk seed refVecs primVecs).map Prod.fst
        = List.replicate refVecs.length Source.reference ++
            List.replicate primVecs.length Source.primary
    ∧ (EmbeddingProjector.project reduce chunk seed refVecs primVecs).map Prod.snd
        = (refVecs ++ primVecs).map (reduce seed (refVecs ++ primVecs)) := by
  unfold EmbeddingProjector.project
  simp only [mapChunked_eq]
  have hlen : (List.replicate refVecs.length Source.reference ++
      List.replicate primVecs.length Source.primary).length
        = ((refVecs ++ primVecs).map (reduce seed (refVecs ++ primVecs))).length := by
    simp
  refine ⟨?_, ?_, ?_⟩
  · simp
  · exact List.map_fst_zip _ _ (Nat.le_of_eq hlen)
  · exact List.map_snd_zip _ _ (Nat.le_of_eq hlen.symm)

/-- C4: project is a pure function of the seed and the input vectors: two
calls with the same seed and inputs agree exactly, whatever the degree of
internal chunk-parallelism used for either call. -/
theorem project_seed_deterministic
    (reduce : Nat → List (List Int) → List Int → List Int) (seed : Nat)
    (refVecs primVecs : List (List Int)) (chunk1 chunk2 : Nat) :
    EmbeddingProjector.project reduce chunk1 seed refVecs primVecs
      = EmbeddingProjector.project reduce chunk2 seed refVecs primVecs := by
  unfold EmbeddingProjector.project
  simp only [mapChunked_eq]

theorem mem_firstKeysAux {α : Type} [DecidableEq α] (k : α) :
    ∀ (l seen : List α), k ∈ firstKeysAux seen l ↔ k ∈ l ∧ k ∉ seen := by
  intro l
  induction l with
  | nil => intro seen; simp [firstKeysAux]
  | cons c cs ih =>
    intro seen
    by_cases hc : c ∈ seen
    · simp only [firstKeysAux, if_pos hc, ih, List.mem_cons]
      constructor
      · rintro ⟨h1, h2⟩
        exact ⟨Or.inr h1, h2⟩
      · rintro ⟨h1, h2⟩
        refine ⟨h1.resolve_left ?_, h2⟩
        intro he
        exact h2 (he ▸ hc)
    · simp only [firstKeysAux, if_neg hc, List.mem_cons, ih]
      constructor
      · rintro (rfl | ⟨h1, h2⟩)
        · exact ⟨Or.inl rfl, hc⟩
        · push_neg at h2
          exact ⟨Or.inr h1, h2.2⟩
      · rintro ⟨rfl | h1, h2⟩
        · exact Or.inl rfl
        · by_cases hkc : k = c
          · exact Or.inl hkc
          · refine Or.inr ⟨h1, ?_⟩
            push_neg
            exact ⟨hkc, h2⟩

theorem nodup_firstKeysAux {α : Type} [DecidableEq α] :
    ∀ (l seen : List α), (firstKeysAux seen l).Nodup := by
  intro l
  induction l with
  | nil => intro seen; simp [firstKeysAux]
  | cons c cs ih =>
    intro seen
    by_cases hc : c ∈ seen
    · simpa [firstKeysAux, if_pos hc] using ih seen
    · simp only [firstKeysAux, if_neg hc, List.nodup_cons]
      refine ⟨?_, ih _⟩
      intro hmem
      rw [mem_firstKeysAux] at hmem
      exact hmem.2 (List.mem_cons_self c seen)

theorem mem_firstKeys {α : Type} [DecidableEq α] (k : α) (l : List α) :
    k ∈ firstKeys l ↔ k ∈ l := by
  simp [firstKeys, mem_firstKeysAux]

theorem nodup_firstKeys {α : Type} [DecidableEq α] (l : List α) :
    (firstKeys l).Nodup :=
  nodup_firstKeysAux l []

theorem nodup_clusterKeys (minSize : Nat) (coords : List (List Int)) :
    (clusterKeys minSize coords).Nodup := by
  unfold clusterKeys
  exact (List.perm_insertionSort _ _).symm.nodup ((nodup_firstKeys coords).filter _)

theorem mem_clusterKeys {minSize : Nat} {coords : List (List Int)} {k : List Int} :
    k ∈ clusterKeys minSize coords ↔ k ∈ coords ∧ minSize ≤ freq coords k := by
  unfold clusterKeys
  rw [List.mem_insertionSort, List.mem_filter, mem_firstKeys]
  simp

theorem sorted_clusterKeys (minSize : Nat) (coords : List (List Int)) :
    (clusterKeys minSize coords).Sorted (fun a b => freq coords b ≤ freq coords a) := by
  unfold clusterKeys
  haveI : IsTotal (List Int) (fun a b => freq coords b ≤ freq coords a) :=
    ⟨fun a b => Nat.le_total (freq coords b) (freq coords a)⟩
  haveI : IsTrans (List Int) (fun a b => freq coords b ≤ freq coords a) :=
    ⟨fun _ _ _ h1 h2 => Nat.le_trans h2 h1⟩
  exact List.sorted_insertionSort _ _

theorem getD_of_idxOf {α : Type} [DecidableEq α] (a : α) (d : α) :
    ∀ (l : List α) (i : Nat), a ∈ l → idxOf a l = i → l.getD i d = a := by
  intro l
  induction l with
  | nil => intro i h; simp at h
  | cons b l ih =>
    intro i hmem hidx
    by_cases hb : b = a
    · rw [idxOf, if_pos hb] at hidx
      subst hidx
      simpa using hb
    · rw [idxOf, if_neg hb] at hidx
      subst hidx
      have hal : a ∈ l := by
        rcases List.mem_cons.mp hmem with rfl | hal
        · exact absurd rfl hb
        · exact hal
      simpa using ih (idxOf a l) hal rfl

theorem idxOf_getD {α : Type} [DecidableEq α] (d : α) :
    ∀ (l : List α) (i : Nat), l.Nodup → i < l.length →
      l.getD i d ∈ l ∧ idxOf (l.getD i d) l = i := by
  intro l
  induction l with
  | nil => intro i _ hi; simp at hi
  | cons b l ih =>
    intro i hnd hi
    rcases List.nodup_cons.mp hnd with ⟨hbl, hndl⟩
    cases i with
    | zero =>
      refine ⟨by simp, ?_⟩
      simp [idxOf]
    | succ n =>
      have hn : n < l.length := by
        simp only [List.length_cons] at hi
        omega
      obtain ⟨hmem, hidx⟩ := ih n hndl hn
      have hgd : (b :: l).getD (n + 1) d = l.getD n d := by simp
      refine ⟨?_, ?_⟩
      · rw [hgd]; exact List.mem_cons_of_mem b hmem
      · rw [hgd, idxOf, if_neg ?_, hidx]
        intro hbe
        exact hbl (hbe ▸ hmem)

theorem clusterSize_eq_freq (minSize : Nat) (coords : List (List Int)) (i : Nat)
    (hi : i < (clusterKeys minSize coords).length) :
    clusterSize (ClusterAnalyzer.cluster minSize coords) i
      = freq coords ((clusterKeys minSize coords).getD i []) := by
  unfold clusterSize ClusterAnalyzer.cluster
  rw [List.filter_map, List.length_map]
  show _ = (List.filter
      (fun c => decide (c = (clusterKeys minSize coords).getD i [])) coords).length
  apply congrArg List.length
  apply List.filter_congr
  intro c hc
  simp only [Function.comp_apply]
  rw [decide_eq_decide]
  by_cases hm : minSize ≤ freq coords c
  · rw [if_pos hm]
    simp only [Option.some.injEq]
    constructor
    · intro hidx
      have hcm : c ∈ clusterKeys minSize coords := mem_clusterKeys.mpr ⟨hc, hm⟩
      exact (getD_of_idxOf c [] _ i hcm hidx).symm
    · intro hceq
      rw [hceq]
      exact (idxOf_getD [] _ i (nodup_clusterKeys minSize coords) hi).2
  · rw [if_neg hm]
    constructor
    · intro habs
      exact absurd habs (by simp)
    · intro hceq
      exfalso
      apply hm
      have hmem := (idxOf_getD [] _ i (nodup_clusterKeys minSize coords) hi).1
      rw [← hceq] at hmem
      exact (mem_clusterKeys.mp hmem).2

/-- C9: Non-noise cluster ids are assigned in decreasing order of cluster
size — a larger id never labels a larger cluster, so the largest cluster gets
the first id — and clustering identical input twice gives identical
assignments. -/
theorem cluster_ids_by_decreasing_size (minSize : Nat) (coords : List (List Int))
    (i j : Nat) (hij : i < j) (hj : j < numClusters minSize coords) :
    clusterSize (ClusterAnalyzer.cluster minSize coords) j
        ≤ clusterSize (ClusterAnalyzer.cluster minSize coords) i
    ∧ ClusterAnalyzer.cluster minSize coords = ClusterAnalyzer.cluster minSize coords := by
  have hj2 : j < (clusterKeys minSize coords).length := hj
  have hi2 : i < (clusterKeys minSize coords).length := Nat.lt_trans hij hj2
  refine ⟨?_, rfl⟩
  rw [clusterSize_eq_freq minSize coords i hi2, clusterSize_eq_freq minSize coords j hj2]
  have hs := (sorted_clusterKeys minSize coords).rel_get_of_lt
    (a := ⟨i, hi2⟩) (b := ⟨j, hj2⟩) hij
  have hgi : (clusterKeys minSize coords).getD i []
      = (clusterKeys minSize coords).get ⟨i, hi2⟩ := by
    rw [List.getD_eq_getElem _ _ hi2, List.get_eq_getElem]
  have hgj : (clusterKeys minSize coords).getD j []
      = (clusterKeys minSize coords).get ⟨j, hj2⟩ := by
    rw [List.getD_eq_getElem _ _ hj2, List.get_eq_getElem]
  rw [hgi, hgj]
  exact hs

/-- C9 witness: on a concrete input with a size-3 and a size-2 cluster, the
cluster with the larger id is no larger than the one with the smaller id. -/
theorem cluster_ids_by_decreasing_size_witness :
    clusterSize (ClusterAnalyzer.cluster 2 [[0], [0], [0], [1], [1], [2]]) 1
      ≤ clusterSize (ClusterAnalyzer.cluster 2 [[0], [0], [0], [1], [1], [2]]) 0 :=
  (cluster_ids_by_decreasing_size 2 [[0], [0], [0], [1], [1], [2]] 0 1 (by decide) (by decide)).1

/-- C2: cluster returns an assignment for every input row (same length as the
input, nothing omitted) and each row identity lands in exactly one place:
either in the NOISE bucket and in no cluster, or in exactly one cluster id
and not in the NOISE bucket. -/
theorem cluster_is_partition (minSize : Nat) (coords : List (List Int)) :
    (ClusterAnalyzer.cluster minSize coords).length = coords.length
    ∧ ∀ i, i < coords.length →
        ((i ∈ noiseMembers (ClusterAnalyzer.cluster minSize coords)
            ∧ ∀ cid, i ∉ clusterMembers (ClusterAnalyzer.cluster minSize coords) cid)
          ∨ ∃ cid, i ∈ clusterMembers (ClusterAnalyzer.cluster minSize coords) cid
              ∧ (∀ cid2, i ∈ clusterMembers (ClusterAnalyzer.cluster minSize coords) cid2
                    → cid2 = cid)
              ∧ i ∉ noiseMembers (ClusterAnalyzer.cluster minSize coords)) := by
  have hlen : (ClusterAnalyzer.cluster minSize coords).length = coords.length := by
    simp [ClusterAnalyzer.cluster]
  refine ⟨hlen, ?_⟩
  intro i hi
  have hilt : i < (ClusterAnalyzer.cluster minSize coords).length := by
    rw [hlen]; exact hi
  rcases hv : (ClusterAnalyzer.cluster minSize coords).getD i none with _ | cid
  all_goals rw [List.getD_eq_getElem _ _ hilt] at hv
  · left
    constructor
    · simp [noiseMembers, List.mem_filter, List.mem_range, hilt, hv]
    · intro cid
      simp [clusterMembers, List.mem_filter, List.mem_range, hilt, hv]
  · right
    refine ⟨cid, ?_, ?_, ?_⟩
    · simp [clusterMembers, List.mem_filter, List.mem_range, hilt, hv]
    · intro cid2 hmem
      simp only [clusterMembers, List.mem_filter, List.mem_range,
        decide_eq_true_eq] at hmem
      obtain ⟨-, h2⟩ := hmem
      rw [List.getD_eq_getElem _ _ hilt, hv] at h2
      exact (Option.some.inj h2).symm
    · simp [noiseMembers, List.mem_filter, List.mem_range, hilt, hv]

/-- C2 witness: on a concrete two-point input, row 0 is placed in exactly one
cluster or in the NOISE bucket. -/
theorem cluster_is_partition_witness :
    (0 ∈ noiseMembers (ClusterAnalyzer.cluster 1 [[5], [5]])
        ∧ ∀ cid, 0 ∉ clusterMembers (ClusterAnalyzer.cluster 1 [[5], [5]]) cid)
      ∨ ∃ cid, 0 ∈ clusterMembers (ClusterAnalyzer.cluster 1 [[5], [5]]) cid
          ∧ (∀ cid2, 0 ∈ clusterMembers (ClusterAnalyzer.cluster 1 [[5], [5]]) cid2
                → cid2 = cid)
          ∧ 0 ∉ noiseMembers (ClusterAnalyzer.cluster 1 [[5], [5]]) :=
  (cluster_is_partition 1 [[5], [5]]).2 0 (by decide)

/-- C5: every entry of a drift scoring run reports the true restricted
reference and primary sample sizes of its scope, and carries the undefined
sentinel (none) exactly when one of the two restricted subpopulations is
empty — a numeric score appears only when both are non-empty. -/
theorem score_undefined_iff_empty_side (stat : Nat → Nat → ℚ)
    (assignment : List (Option Nat)) (refIds primIds : List Nat)
    (s : Scope) (r : DriftResult)
    (h : (s, r) ∈ DriftScorer.score stat assignment refIds primIds) :
    r.countRef = countIn assignment refIds s
    ∧ r.countPrim = countIn assignment primIds s
    ∧ (r.value = none
        ↔ (countIn assignment refIds s = 0 ∨ countIn assignment primIds s = 0)) := by
  unfold DriftScorer.score at h
  rw [List.mem_map] at h
  obtain ⟨s2, _, heq⟩ := h
  cases heq
  refine ⟨rfl, rfl, ?_⟩
  unfold mkResult
  by_cases hz : countIn assignment refIds s = 0 ∨ countIn assignment primIds s = 0
  · simp [hz]
  · simp [hz]

/-- C5 witness: on a concrete run where cluster 0 contains no primary row,
the drift result for that cluster scope carries the undefined sentinel. -/
theorem score_undefined_iff_empty_side_witness :
    (mkResult (fun _ _ => (0 : ℚ)) [some 0, none] [0] [1] (Scope.cluster 0)).value = none := by
  have h := score_undefined_iff_empty_side (fun _ _ => (0 : ℚ)) [some 0, none] [0] [1]
    (Scope.cluster 0) (mkResult (fun _ _ => (0 : ℚ)) [some 0, none] [0] [1] (Scope.cluster 0))
    (List.mem_map_of_mem _ (by decide))
  exact h.2.2.mpr (Or.inr (by decide))

/-- C3: validate accepts exactly when every column identifier the schema
declares is present in the dataset's column set; dropping any one declared
column from the column set makes validation fail with SchemaError; and the
declared columns include every embedding feature's vector column and, when
given, its raw-data column. -/
theorem validate_iff_declared_present (s : Schema) (cols : List String) :
    (SchemaModel.validate s cols = .ok () ↔ ∀ c ∈ s.declaredColumns, c ∈ cols)
    ∧ (∀ c ∈ s.declaredColumns,
        SchemaModel.validate s (cols.filter (fun x => ¬ (x = c))) = .error .schemaError)
    ∧ (∀ f ∈ s.embeddingFeatureColumnNames,
        f.vectorColumnName ∈ s.declaredColumns
        ∧ ∀ rc, f.rawDataColumnName = some rc → rc ∈ s.declaredColumns) := by
  refine ⟨?_, ?_, ?_⟩
  · unfold SchemaModel.validate
    by_cases h : ∀ c ∈ s.declaredColumns, c ∈ cols
    · rw [if_pos]
      · exact iff_of_true rfl h
      · rw [List.all_eq_true]
        intro c hc
        exact decide_eq_true (h c hc)
    · rw [if_neg]
      · exact iff_of_false (by simp) h
      · rw [List.all_eq_true]
        intro hall
        apply h
        intro c hc
        exact of_decide_eq_true (hall c hc)
  · intro c hc
    unfold SchemaModel.validate
    rw [if_neg]
    intro hall
    rw [List.all_eq_true] at hall
    have hmem := of_decide_eq_true (hall c hc)
    rw [List.mem_filter] at hmem
    have : (c = c) := rfl
    simp at hmem
  · intro f hf
    constructor
    · have hv : f.vectorColumnName
          ∈ s.embeddingFeatureColumnNames.map (fun g => g.vectorColumnName) :=
        List.mem_map_of_mem _ hf
      exact List.mem_append_left _ (List.mem_append_right _ hv)
    · intro rc hrc
      have hr : rc ∈ s.embeddingFeatureColumnNames.filterMap (fun g => g.rawDataColumnName) :=
        List.mem_filterMap.mpr ⟨f, hf, hrc⟩
      exact List.mem_append_right _ hr

/-- C3 witness: dropping the notebook schema's timestamp column from its own
declared column set makes validation fail with SchemaError. -/
theorem validate_iff_declared_present_witness :
    SchemaModel.validate schemaDemo
        ((schemaDemo.declaredColumns).filter (fun x => ¬ (x = "prediction_ts")))
      = .error .schemaError :=
  (validate_iff_declared_present schemaDemo schemaDemo.declaredColumns).2.1
    "prediction_ts" (by decide)

theorem allSameLength_iff (rows : List (List Int)) :
    allSameLength rows = true ↔ ∀ v1 ∈ rows, ∀ v2 ∈ rows, v1.length = v2.length := by
  cases rows with
  | nil => simp [allSameLength]
  | cons v rest =>
    unfold allSameLength
    rw [List.all_eq_true]
    constructor
    · intro h v1 h1 v2 h2
      have e1 : v1.length = v.length := by
        rcases List.mem_cons.mp h1 with rfl | h1
        · rfl
        · exact of_decide_eq_true (h v1 h1)
      have e2 : v2.length = v.length := by
        rcases List.mem_cons.mp h2 with rfl | h2
        · rfl
        · exact of_decide_eq_true (h v2 h2)
      rw [e1, e2]
    · intro h w hw
      exact decide_eq_true
        (h w (List.mem_cons_of_mem v hw) v (List.mem_cons_self v rest))

theorem extractVectors_ok (t : Table) :
    ∀ (fs : List EmbeddingColumnNames) (vs : List (String × List (List Int))),
      extractVectors t fs = .ok vs →
      vs = fs.map (fun f => (f.name, colLookup t f.vectorColumnName))
      ∧ ∀ p ∈ vs, allSameLength p.2 = true := by
  intro fs
  induction fs with
  | nil =>
    intro vs h
    simp only [extractVectors, Except.ok.injEq] at h
    subst h
    simp
  | cons f rest ih =>
    intro vs h
    simp only [extractVectors] at h
    by_cases hs : allSameLength (colLookup t f.vectorColumnName) = true
    · rw [if_pos hs] at h
      cases hrec : extractVectors t rest with
      | error e => rw [hrec] at h; simp at h
      | ok vs2 =>
        rw [hrec] at h
        simp only [Except.ok.injEq] at h
        subst h
        obtain ⟨h1, h2⟩ := ih vs2 hrec
        refine ⟨by simp [h1], ?_⟩
        intro p hp
        rcases List.mem_cons.mp hp with rfl | hp
        · exact hs
        · exact h2 p hp
    · rw [if_neg hs] at h
      simp at h

theorem extractVectors_error (t : Table) :
    ∀ (fs : List EmbeddingColumnNames) (e : PhxError),
      extractVectors t fs = .error e → e = .dimensionMismatch := by
  intro fs
  induction fs with
  | nil => intro e h; simp [extractVectors] at h
  | cons f rest ih =>
    intro e h
    simp only [extractVectors] at h
    by_cases hs : allSameLength (colLookup t f.vectorColumnName) = true
    · rw [if_pos hs] at h
      cases hrec : extractVectors t rest with
      | error e2 =>
        rw [hrec] at h
        simp only [Except.error.injEq] at h
        subst h
        exact ih _ hrec
      | ok vs2 => rw [hrec] at h; simp at h
    · rw [if_neg hs] at h
      simp only [Except.error.injEq] at h
      exact h.symm

theorem extractVectors_not_ok (t : Table) :
    ∀ (fs : List EmbeddingColumnNames) (f : EmbeddingColumnNames), f ∈ fs →
      allSameLength (colLookup t f.vectorColumnName) = false →
      ∀ vs, extractVectors t fs ≠ .ok vs := by
  intro fs
  induction fs with
  | nil => intro f hf; simp at hf
  | cons g rest ih =>
    intro f hf hbad vs h
    simp only [extractVectors] at h
    rcases List.mem_cons.mp hf with rfl | hf
    · rw [if_neg (by simp [hbad])] at h
      simp at h
    · by_cases hs : allSameLength (colLookup t g.vectorColumnName) = true
      · rw [if_pos hs] at h
        cases hrec : extractVectors t rest with
        | error e => rw [hrec] at h; simp at h
        | ok vs2 => exact ih f hf hbad vs2 hrec
      · rw [if_neg hs] at h
        simp at h

/-- C8: once the schema validates against the table's columns, construct
fails with DimensionMismatchError whenever two rows of one declared embedding
vector column have differing lengths; and on success the dataset carries, per
declared embedding feature, exactly that feature's column rows in row order
(aligned to row identity), all of one fixed length. -/
theorem construct_dimension_check (t : Table) (nm : String) (s : Schema) :
    (SchemaModel.validate s t.colNames = .ok () →
      ∀ f ∈ s.embeddingFeatureColumnNames,
        ∀ v1 ∈ colLookup t f.vectorColumnName, ∀ v2 ∈ colLookup t f.vectorColumnName,
          v1.length ≠ v2.length →
            DatasetModel.construct t nm s = .error .dimensionMismatch)
    ∧ (∀ d, DatasetModel.construct t nm s = .ok d →
        d.vectors = s.embeddingFeatureColumnNames.map
            (fun f => (f.name, colLookup t f.vectorColumnName))
        ∧ ∀ p ∈ d.vectors, allSameLength p.2 = true) := by
  constructor
  · intro hval f hf v1 h1 v2 h2 hne
    have hbad : allSameLength (colLookup t f.vectorColumnName) = false := by
      rcases hall : allSameLength (colLookup t f.vectorColumnName) with _ | _
      · rfl
      · exact absurd ((allSameLength_iff _).mp hall v1 h1 v2 h2) hne
    unfold DatasetModel.construct
    rw [hval]
    cases hrec : extractVectors t s.embeddingFeatureColumnNames with
    | error e =>
      rw [extractVectors_error t _ e hrec]
    | ok vs => exact absurd hrec (extractVectors_not_ok t _ f hf hbad vs)
  · intro d hd
    unfold DatasetModel.construct at hd
    cases hval : SchemaModel.validate s t.colNames with
    | error e => rw [hval] at hd; simp at hd
    | ok u =>
      rw [hval] at hd
      cases hrec : extractVectors t s.embeddingFeatureColumnNames with
      | error e => rw [hrec] at hd; simp at hd
      | ok vs =>
        rw [hrec] at hd
        simp only [Except.ok.injEq] at hd
        subst hd
        obtain ⟨h1, h2⟩ := extractVectors_ok t _ vs hrec
        exact ⟨h1, h2⟩

/-- C8 witness: a table whose declared vector column has rows of lengths 1
and 2 makes construct fail with DimensionMismatchError. -/
theorem construct_dimension_check_witness :
    DatasetModel.construct tableDemo "d" schemaV = .error .dimensionMismatch :=
  (construct_dimension_check tableDemo "d" schemaV).1 rfl ⟨"e", "v", none⟩ (by decide)
    [1] (by decide) [2, 3] (by decide) (by decide)

theorem overwrite_idem (k : String) (a : Artifact) (c : List (String × Artifact)) :
    overwrite k a (overwrite k a c) = overwrite k a c := by
  simp [overwrite, List.filter_filter]

theorem aLookup_overwrite (k : String) (a : Artifact) (c : List (String × Artifact)) :
    aLookup k (overwrite k a c) = some a := by
  simp [overwrite, aLookup]

/-- C6: if a compute call on a session succeeds, an immediately repeated
compute call for the same feature name succeeds with the identical artifact
and the identical session (the cache slot is overwritten with an equal
artifact), and the artifact is cached under the feature name. -/
theorem compute_idempotent (s : Session) (f : String) (s2 : Session) (a : Artifact)
    (h : AnalysisSession.compute f s = .ok (s2, a)) :
    AnalysisSession.compute f s2 = .ok (s2, a) ∧ getArtifact s2 f = some a := by
  obtain ⟨st, rd, pd, cfg, red, stt, cch⟩ := s
  cases st with
  | created => simp [AnalysisSession.compute] at h
  | closed => simp [AnalysisSession.compute] at h
  | opened =>
    cases rd with
    | none => simp [AnalysisSession.compute] at h
    | some dr =>
      cases pd with
      | none => simp [AnalysisSession.compute] at h
      | some dp =>
        simp only [AnalysisSession.compute, Except.ok.injEq, Prod.mk.injEq] at h
        obtain ⟨h1, h2⟩ := h
        subst h2
        subst h1
        constructor
        · simp only [AnalysisSession.compute]
          rw [overwrite_idem]
        · simp [getArtifact, aLookup_overwrite]

/-- C6 witness: computing the notebook's embedding feature twice on the demo
session returns the identical artifact and leaves the identical cache. -/
theorem compute_idempotent_witness :
    AnalysisSession.compute "text_embedding" sessDemo2 = .ok (sessDemo2, artDemo)
    ∧ getArtifact sessDemo2 "text_embedding" = some artDemo :=
  compute_idempotent sessDemo "text_embedding" sessDemo2 artDemo rfl

/-- C7: after close, every compute call fails with SessionClosedError and
cached artifacts are unreachable; close lands in the terminal CLOSED state
and closing again changes nothing; a session opened by successful validation
starts OPEN with an empty cache; and compute succeeds only in OPEN. -/
theorem compute_after_close_fails (s : Session) (f : String) :
    AnalysisSession.compute f (AnalysisSession.close s) = .error .sessionClosed
    ∧ getArtifact (AnalysisSession.close s) f = none
    ∧ (AnalysisSession.close s).state = .closed
    ∧ AnalysisSession.close (AnalysisSession.close s) = AnalysisSession.close s
    ∧ (∀ refDs primDs cfg red stt sess,
        AnalysisSession.openSession refDs primDs cfg red stt = .ok sess →
          sess.state = .opened ∧ sess.cache = [])
    ∧ (∀ r, AnalysisSession.compute f s = .ok r → s.state = .opened) := by
  refine ⟨rfl, rfl, rfl, rfl, ?_, ?_⟩
  · intro refDs primDs cfg red stt sess h
    unfold AnalysisSession.openSession at h
    by_cases hsch : refDs.schema = primDs.schema
    · rw [if_pos hsch] at h
      simp only [Except.ok.injEq] at h
      subst h
      exact ⟨rfl, rfl⟩
    · rw [if_neg hsch] at h
      simp at h
  · intro r h
    obtain ⟨st, rd, pd, cfg, red, stt, cch⟩ := s
    cases st with
    | created => simp [AnalysisSession.compute] at h
    | closed => simp [AnalysisSession.compute] at h
    | opened => rfl

/-- C7 witness: computing on the closed demo session (which had a cached
artifact before close) fails with SessionClosedError. -/
theorem compute_after_close_fails_witness :
    AnalysisSession.compute "text_embedding" (AnalysisSession.close sessDemo2)
      = .error .sessionClosed :=
  (compute_after_close_fails sessDemo2 "text_embedding").1

/-- C10: a successful launch_app installs the session it returns as the
process-wide current session handle (so at most one session is active), the
session starts OPEN, and a close_app taking no session argument closes
exactly that most recently launched session, transitioning it to CLOSED and
clearing the global handle. -/
theorem single_global_session (primDs refDs : Dataset) (cfg : SessionConfig)
    (red : Nat → List (List Int) → List Int → List Int) (stt : Nat → Nat → ℚ)
    (cur2 : Option Session) (s : Session)
    (h : launch_app primDs refDs cfg red stt = .ok (cur2, s)) :
    cur2 = some s
    ∧ s.state = .opened
    ∧ close_app cur2 = (none, some (AnalysisSession.close s))
    ∧ (AnalysisSession.close s).state = .closed := by
  unfold launch_app at h
  cases hop : AnalysisSession.openSession refDs primDs cfg red stt with
  | error e => rw [hop] at h; simp at h
  | ok s0 =>
    rw [hop] at h
    simp only [Except.ok.injEq, Prod.mk.injEq] at h
    obtain ⟨h1, h2⟩ := h
    subst h2
    subst h1
    refine ⟨rfl, ?_, rfl, rfl⟩
    unfold AnalysisSession.openSession at hop
    by_cases hsch : refDs.schema = primDs.schema
    · rw [if_pos hsch] at hop
      simp only [Except.ok.injEq] at hop
      rw [← hop]
    · rw [if_neg hsch] at hop
      simp at hop

/-- C10 witness: closing the app right after launching it on the demo
datasets closes exactly the launched session and clears the global handle. -/
theorem single_global_session_witness :
    close_app (some sessDemo) = (none, some (AnalysisSession.close sessDemo)) :=
  (single_global_session primDemo refDemo cfgDemo redDemo statDemo
    (some sessDemo) sessDemo rfl).2.2.1

end Phoenix
